import Mathlib

/-!
Verification of the tcell screen abstraction (`screen.go`).

The repository source provides the `Screen` interface contract and the
concrete constructor `NewScreen`.  The backing components (cell buffer,
diff/render engine, event pipeline, rune-fallback registry) are declared
by the interface and specified in the design document; they are modelled
here from the specification and verified against the claimed properties.
-/

namespace Tcell

/-! ## Event pipeline

Modelled from the spec: the Event Pipeline is "a bounded, ordered queue
fed by a backend-level input reader" with states Running and Stopped per
Screen instance; the transition Running → Stopped is one-way, triggered
by `Fini()` or an unrecoverable backend failure.  The queue holds opaque
events, its capacity is fixed at construction, delivery order equals
arrival order. -/

/-- Errors surfaced by the event pipeline.  `ErrEventQFull` is returned by
`PostEvent` when the queue is full (screen.go lines 109-112). -/
inductive QueueError where
  | ErrEventQFull
  deriving DecidableEq, Repr

/-- Modelled from the spec: the bounded FIFO event queue together with the
Running/Stopped instance state.  `events` is ordered oldest first;
`capacity` is fixed at construction; `stopped` records whether the
instance has transitioned to Stopped. -/
structure EventQ (E : Type) where
  capacity : Nat
  events : List E
  stopped : Bool
  deriving DecidableEq, Repr

/-- Modelled from the spec: a freshly constructed Running pipeline with
fixed capacity and no pending events. -/
def EventQ.new (E : Type) (capacity : Nat) : EventQ E :=
  { capacity := capacity, events := [], stopped := false }

/-- Modelled from the spec: `Fini()` triggers the one-way transition
Running → Stopped (only the pipeline-visible effect is modelled). -/
def Fini {E : Type} (q : EventQ E) : EventQ E :=
  { q with stopped := true }

/-- Modelled from the spec: `PostEvent(ev)` is non-blocking; it appends to
the queue if capacity remains, else fails with the Queue-Full error and
the event is dropped (not retried internally). -/
def PostEvent {E : Type} (q : EventQ E) (ev : E) : EventQ E × Option QueueError :=
  if q.events.length < q.capacity then
    ({ q with events := q.events ++ [ev] }, none)
  else
    (q, some QueueError.ErrEventQFull)

/-- Modelled from the spec: `PollEvent()` blocks until an event is
available or the instance transitions to Stopped, in which case it
returns a defined empty/nil result.  A call that would block (Running
with an empty queue) is modelled as `none`; a call that returns is
`some (result, queue after the call)`, where the result `none` is the
nil Event. -/
def PollEvent {E : Type} (q : EventQ E) : Option (Option E × EventQ E) :=
  if q.stopped then
    some (none, q)
  else
    match q.events with
    | [] => none
    | e :: rest => some (some e, { q with events := rest })

/-- Modelled from the spec: a sequence of `PostEvent` calls, returning the
final queue state and the per-call results in call order. -/
def PostMany {E : Type} (q : EventQ E) : List E → EventQ E × List (Option QueueError)
  | [] => (q, [])
  | e :: es =>
    let (q', r) := PostEvent q e
    let (q'', rs) := PostMany q' es
    (q'', r :: rs)

/-- Modelled from the spec: draining the queue by repeated `PollEvent`
calls, collecting delivered events; `fuel` bounds the number of calls and
the drain stops if a call would block. -/
def DrainFuel {E : Type} : Nat → EventQ E → List E
  | 0, _ => []
  | fuel + 1, q =>
    match PollEvent q with
    | some (some e, q') => e :: DrainFuel fuel q'
    | _ => []

/-- Modelled from the spec: `n` successive `PollEvent` calls, collecting
each call's result; the sequence stops early if a call would block. -/
def PollMany {E : Type} : Nat → EventQ E → List (Option E) × EventQ E
  | 0, q => ([], q)
  | n + 1, q =>
    match PollEvent q with
    | some (r, q') =>
      let (rs, q'') := PollMany n q'
      (r :: rs, q'')
    | none => ([], q)

/-! ## Cell buffer

Modelled from the spec: a Cell is a primary character, zero or more
combining code points, a style (opaque token, modelled as `Nat`) and a
display width derived from the primary character only.  A Grid is a
width×height array of Cells indexed by (x, y), 0-based; two grids exist
concurrently, back and front. -/

/-- Modelled from the spec: `StyleDefault`, the style returned for
out-of-range reads and used when no style is specified. -/
def StyleDefault : Nat := 0

/-- Modelled from the spec: one addressable grid position's character,
combining marks and style.  Width is not stored: it is derived from
`primary` alone. -/
structure Cell where
  primary : Char
  combining : List Char
  style : Nat
  deriving DecidableEq, Repr

/-- Modelled from the spec: the zero-valued cell (zero rune, no combining,
default style) that populates fresh grids. -/
def emptyCell : Cell := ⟨Char.ofNat 0, [], StyleDefault⟩

/-- Modelled from the spec: a width×height grid of cells stored row-major
as a list of rows. -/
structure Grid where
  width : Nat
  height : Nat
  rows : List (List Cell)
  deriving DecidableEq, Repr

/-- A grid is well-formed when it holds exactly `height` rows of exactly
`width` cells each. -/
def Grid.WF (g : Grid) : Prop :=
  g.rows.length = g.height ∧ ∀ row ∈ g.rows, row.length = g.width

instance (g : Grid) : Decidable g.WF := by
  unfold Grid.WF; infer_instance

/-- A fresh grid of the given dimensions, all cells zero-valued. -/
def mkGrid (w h : Nat) : Grid :=
  ⟨w, h, List.replicate h (List.replicate w emptyCell)⟩

/-- Replace the element at an index, a no-op when the index is out of
bounds. -/
def listUpdate {α : Type} : List α → Nat → α → List α
  | [], _, _ => []
  | _ :: xs, 0, a => a :: xs
  | x :: xs, n + 1, a => x :: listUpdate xs n a

/-- The row at index `y`, empty when out of bounds. -/
def rowAt (rows : List (List Cell)) (y : Nat) : List Cell := rows.getD y []

/-- The cell at index `x` of a row, zero-valued when out of bounds. -/
def cellAt (row : List Cell) (x : Nat) : Cell := row.getD x emptyCell

/-- Modelled from the spec: display width of a cell, derived from the
primary character only; `isWide` is the backend's width classification
(width 2 for East Asian full-width characters, else 1). -/
def runeWidth (isWide : Char → Bool) (c : Char) : Nat :=
  if isWide c then 2 else 1

/-- Modelled from the spec: `SetContent(x, y, primary, combining, style)`
writes into the (back) grid only, silently ignoring out-of-range
coordinates (screen.go lines 48-61). -/
def SetContent (g : Grid) (x y : Int) (primary : Char) (combining : List Char)
    (style : Nat) : Grid :=
  if 0 ≤ x ∧ x < (g.width : Int) ∧ 0 ≤ y ∧ y < (g.height : Int) then
    let newRow := listUpdate (rowAt g.rows y.toNat) x.toNat ⟨primary, combining, style⟩
    { g with rows := listUpdate g.rows y.toNat newRow }
  else g

/-- Modelled from the spec: `GetContent(x, y)` reads logical (back-grid,
pre-render) state, returning primary rune, combining list, style and
width; out-of-range coordinates yield (0, nil, StyleDefault, 0)
(screen.go lines 39-46). -/
def GetContent (isWide : Char → Bool) (g : Grid) (x y : Int) :
    Char × List Char × Nat × Nat :=
  if 0 ≤ x ∧ x < (g.width : Int) ∧ 0 ≤ y ∧ y < (g.height : Int) then
    let c := cellAt (rowAt g.rows y.toNat) x.toNat
    (c.primary, c.combining, c.style, runeWidth isWide c.primary)
  else
    (Char.ofNat 0, [], StyleDefault, 0)

/-- Modelled from the spec: the double-buffered screen state — back grid
(latest application intent), front grid (last state actually rendered)
and the per-instance mutable default style. -/
structure ScreenBuffer where
  back : Grid
  front : Grid
  defaultStyle : Nat
  deriving DecidableEq, Repr

/-- Modelled from the spec: `Fill(ch, style)` overwrites every back-grid
cell uniformly (screen.go lines 32-33). -/
def Fill (s : ScreenBuffer) (ch : Char) (style : Nat) : ScreenBuffer :=
  { s with back := { s.back with
      rows := s.back.rows.map (fun row => row.map (fun _ => ⟨ch, [], style⟩)) } }

/-- Modelled from the spec: `Clear()` resets every back-grid cell to
(space, no combining, default style) (screen.go lines 27-30). -/
def Clear (s : ScreenBuffer) : ScreenBuffer :=
  { s with back := { s.back with
      rows := s.back.rows.map (fun row => row.map (fun _ => ⟨' ', [], s.defaultStyle⟩)) } }

/-! ## Screen construction

`NewScreen` (screen.go lines 259-268) is concrete code in the source; it
is embedded here with the two backend constructors abstracted as their
result pairs (screen or nil, error or nil), since those constructors live
outside this file of the repository. -/

/-- Embedding of `NewScreen`: try the console screen first, returning it
with a nil error when non-nil (its error is discarded); otherwise try the
terminfo screen the same way; when both are nil, return nil and the
terminfo constructor's error. -/
def NewScreen {S Err : Type} (console : Option S × Option Err)
    (terminfo : Option S × Option Err) : Option S × Option Err :=
  match console.1 with
  | some s => (some s, none)
  | none =>
    match terminfo.1 with
    | some s => (some s, none)
    | none => (none, terminfo.2)

/-! ## Rune fallback registry and displayability

Modelled from the spec: a mapping from rune to substitution string,
explicitly registered, plus an implicit set of built-in substitutions
supplied by the backend's capability data; explicit registrations shadow
implicit ones.  Separately, the terminal may natively support a
character, or natively replace it with a visually indistinguishable
glyph via an alternate character set, which is used in preference to
registry fallbacks. -/

/-- Modelled from the spec: the Fallback Registry — explicitly registered
substitutions plus the backend-supplied implicit ones. -/
structure FallbackRegistry where
  explicitSubs : List (Char × String)
  implicitSubs : List (Char × String)
  deriving DecidableEq, Repr

/-- Modelled from the spec: `RegisterRuneFallback(r, subst)` adds an
explicit fallback for `r` (screen.go lines 176-195), replacing any prior
explicit registration for the same rune. -/
def RegisterRuneFallback (reg : FallbackRegistry) (r : Char) (subst : String) :
    FallbackRegistry :=
  { reg with explicitSubs := (r, subst) :: reg.explicitSubs.filter (fun p => p.1 != r) }

/-- Modelled from the spec: `UnregisterRuneFallback(r)` unmaps a
replacement, removing the implicit replacements for `r` as well
(screen.go lines 197-203). -/
def UnregisterRuneFallback (reg : FallbackRegistry) (r : Char) : FallbackRegistry :=
  ⟨reg.explicitSubs.filter (fun p => p.1 != r),
    reg.implicitSubs.filter (fun p => p.1 != r)⟩

/-- Modelled from the spec: registry lookup used by the render stage —
explicit registrations shadow the implicit backend-supplied ones. -/
def resolveFallback (reg : FallbackRegistry) (r : Char) : Option String :=
  match reg.explicitSubs.lookup r with
  | some s => some s
  | none => reg.implicitSubs.lookup r

/-- Modelled from the spec: displayability resolution per character about
to be emitted: (a) the character set natively supports it → emit as-is;
(b) the terminal natively replaces it (alternate character set) → use
that; (c) a registry fallback exists (explicit shadowing implicit) → use
it; (d) none available → emit `?`. -/
def displayResolve (native : Char → Bool) (nativeSubst : Char → Option String)
    (reg : FallbackRegistry) (r : Char) : String :=
  if native r then String.singleton r
  else
    match nativeSubst r with
    | some s => s
    | none =>
      match resolveFallback reg r with
      | some s => s
      | none => "?"

/-- Modelled from the spec: `CanDisplay(r, checkFallbacks)` (screen.go
lines 205-214) is true when the character set natively supports `r`;
when `r` is displayable only through the terminal's native replacement
or a registry fallback, it is true exactly when `checkFallbacks` is
true; otherwise false. -/
def CanDisplay (native : Char → Bool) (nativeSubst : Char → Option String)
    (reg : FallbackRegistry) (r : Char) (checkFallbacks : Bool) : Bool :=
  native r ||
    (checkFallbacks && ((nativeSubst r).isSome || (resolveFallback reg r).isSome))

/-! ## Diff/render engine

Modelled from the spec: `Show()` computes the minimal set of (x, y)
positions where back ≠ front (rune, combining set, or style differs,
with wide-character boundary effects: changing a wide cell invalidates
its continuation column too); emits backend writes only for changed
positions, in row-major order; then copies the changed cells from back
to front.  A wide character printed in the last column is replaced with
a single-width space at render time, without mutating back-grid logical
content. -/

/-- A backend write operation: a position and the character and style
emitted there. -/
structure WriteOp where
  x : Nat
  y : Nat
  ch : Char
  style : Nat
  deriving DecidableEq, Repr

/-- Modelled from the spec: the character emitted for the cell at column
`x` of a `w`-column grid — a wide character in the last column is
rendered as a single-width space. -/
def renderChar (isWide : Char → Bool) (w x : Nat) (c : Cell) : Char :=
  if isWide c.primary = true ∧ w ≤ x + 1 then ' ' else c.primary

/-- Modelled from the spec: the diff pass emits a write at column `x`
when the back and front cells differ there, or when the previous column
holds a changed wide back cell (its continuation column is
invalidated). -/
def mustWrite (isWide : Char → Bool) (frontRow backRow : List Cell) (x : Nat) : Bool :=
  decide (cellAt backRow x ≠ cellAt frontRow x) ||
    (decide (1 ≤ x) && decide (cellAt backRow (x - 1) ≠ cellAt frontRow (x - 1)) &&
      isWide (cellAt backRow (x - 1)).primary)

/-- The backend writes the diff pass emits for one row, left to right. -/
def rowWrites (isWide : Char → Bool) (w y : Nat) (frontRow backRow : List Cell) :
    List WriteOp :=
  ((List.range w).filter (mustWrite isWide frontRow backRow)).map
    (fun x => ⟨x, y, renderChar isWide w x (cellAt backRow x), (cellAt backRow x).style⟩)

/-- Modelled from the spec: the full sequence of backend writes `Show()`
emits, row-major. -/
def ShowWrites (isWide : Char → Bool) (w h : Nat) (front back : List (List Cell)) :
    List WriteOp :=
  ((List.range h).map (fun y => rowWrites isWide w y (rowAt front y) (rowAt back y))).join

/-- Modelled from the spec: the front grid after `Show()` — changed cells
are copied from back to front, unchanged cells keep their front value. -/
def showFront (front back : List (List Cell)) : List (List Cell) :=
  List.zipWith (fun fr br => List.zipWith (fun f b => if f = b then f else b) fr br)
    front back

/-- The declarative change predicate of the diff pass: position (x, y)
differs between back and front, or is the continuation column of a
changed wide back cell. -/
def diffPos (isWide : Char → Bool) (front back : List (List Cell)) (x y : Nat) : Prop :=
  cellAt (rowAt back y) x ≠ cellAt (rowAt front y) x ∨
    (1 ≤ x ∧ cellAt (rowAt back y) (x - 1) ≠ cellAt (rowAt front y) (x - 1) ∧
      isWide (cellAt (rowAt back y) (x - 1)).primary = true)

instance (isWide : Char → Bool) (front back : List (List Cell)) (x y : Nat) :
    Decidable (diffPos isWide front back x y) := by
  unfold diffPos; infer_instance

/-- Modelled from the spec: `Show()` (screen.go lines 152-157) emits the
diff writes and copies the changed cells from back to front; the back
grid is left as is. -/
def Show (isWide : Char → Bool) (s : ScreenBuffer) : List WriteOp × ScreenBuffer :=
  (ShowWrites isWide s.back.width s.back.height s.front.rows s.back.rows,
   { s with front := { s.back with rows := showFront s.front.rows s.back.rows } })

section EventLemmas

variable {E : Type}

/-- Posting a list of events into a Running queue with enough remaining
capacity succeeds call by call and appends them in order. -/
theorem postMany_appends (es : List E) (l : List E) (cap : Nat) (stp : Bool)
    (hcap : l.length + es.length ≤ cap) :
    PostMany ⟨cap, l, stp⟩ es = (⟨cap, l ++ es, stp⟩, List.replicate es.length none) := by
  induction es generalizing l with
  | nil => simp [PostMany]
  | cons e es ih =>
    simp only [List.length_cons] at hcap
    have hlt : l.length < cap := by omega
    have hstep : PostEvent (⟨cap, l, stp⟩ : EventQ E) e = (⟨cap, l ++ [e], stp⟩, none) := by
      simp [PostEvent, hlt]
    have hrest : (l ++ [e]).length + es.length ≤ cap := by
      simp [List.length_append]
      omega
    simp [PostMany, hstep, ih (l ++ [e]) hrest, List.replicate_succ]

/-- Draining a Running queue with fuel equal to its length delivers
exactly its events, oldest first. -/
theorem drainFuel_delivers (l : List E) (cap : Nat) :
    DrainFuel l.length ⟨cap, l, false⟩ = l := by
  induction l with
  | nil => simp [DrainFuel]
  | cons e es ih =>
    simp [DrainFuel, PollEvent, ih]

end EventLemmas

section ListLemmas

variable {α : Type}

/-- `listUpdate` preserves length. -/
theorem listUpdate_length (l : List α) (n : Nat) (a : α) :
    (listUpdate l n a).length = l.length := by
  induction l generalizing n with
  | nil => rfl
  | cons x xs ih =>
    cases n with
    | zero => rfl
    | succ m => simp [listUpdate, ih]

/-- Reading back an in-bounds update returns the written element. -/
theorem listUpdate_getD_self (l : List α) (n : Nat) (a d : α) (h : n < l.length) :
    (listUpdate l n a).getD n d = a := by
  induction l generalizing n with
  | nil => simp at h
  | cons x xs ih =>
    cases n with
    | zero => rfl
    | succ m =>
      simp only [listUpdate, List.getD_cons_succ]
      exact ih m (by simpa using h)

/-- An in-bounds `getD` produces a member of the list. -/
theorem getD_mem (l : List α) (n : Nat) (d : α) (h : n < l.length) :
    l.getD n d ∈ l := by
  induction l generalizing n with
  | nil => simp at h
  | cons x xs ih =>
    cases n with
    | zero => exact List.mem_cons_self _ _
    | succ m =>
      simp only [List.getD_cons_succ]
      exact List.mem_cons_of_mem _ (ih m (by simpa using h))

/-- An out-of-bounds `getD` falls back to the default. -/
theorem getD_of_le (l : List α) (n : Nat) (d : α) (h : l.length ≤ n) :
    l.getD n d = d := by
  induction l generalizing n with
  | nil => cases n <;> rfl
  | cons x xs ih =>
    cases n with
    | zero => simp at h
    | succ m =>
      simp only [List.getD_cons_succ]
      exact ih m (by simpa using h)

end ListLemmas

section RenderLemmas

/-- The boolean diff test agrees with the declarative change predicate. -/
theorem mustWrite_iff (isWide : Char → Bool) (front back : List (List Cell))
    (x y : Nat) :
    mustWrite isWide (rowAt front y) (rowAt back y) x = true ↔
      diffPos isWide front back x y := by
  simp [mustWrite, diffPos, and_assoc]

/-- Boolean-valued form of `mustWrite_iff`. -/
theorem mustWrite_eq_decide (isWide : Char → Bool) (front back : List (List Cell))
    (x y : Nat) :
    mustWrite isWide (rowAt front y) (rowAt back y) x =
      decide (diffPos isWide front back x y) := by
  by_cases h : diffPos isWide front back x y
  · rw [(mustWrite_iff isWide front back x y).mpr h, decide_eq_true h]
  · have hm : mustWrite isWide (rowAt front y) (rowAt back y) x = false := by
      rw [Bool.eq_false_iff]
      intro hc
      exact h ((mustWrite_iff isWide front back x y).mp hc)
    rw [hm, decide_eq_false h]

/-- The positions `Show()` writes to are exactly the row-major
enumeration of the changed (or continuation-invalidated) positions. -/
theorem showWrites_positions (isWide : Char → Bool) (w h : Nat)
    (front back : List (List Cell)) :
    (ShowWrites isWide w h front back).map (fun op => (op.x, op.y)) =
      ((List.range h).map (fun y =>
        ((List.range w).filter (fun x => decide (diffPos isWide front back x y))).map
          (fun x => (x, y)))).join := by
  unfold ShowWrites
  rw [List.map_join, List.map_map]
  congr 1
  apply List.map_congr_left
  intro y _
  unfold rowWrites
  rw [Function.comp_apply, List.map_map]
  have hfil : (List.range w).filter (mustWrite isWide (rowAt front y) (rowAt back y)) =
      (List.range w).filter (fun x => decide (diffPos isWide front back x y)) :=
    List.filter_congr (fun x _ => mustWrite_eq_decide isWide front back x y)
  rw [hfil]
  apply List.map_congr_left
  intro x _
  rfl

/-- Membership characterization of the emitted writes. -/
theorem mem_showWrites (isWide : Char → Bool) (w h : Nat)
    (front back : List (List Cell)) (op : WriteOp) :
    op ∈ ShowWrites isWide w h front back ↔
      ∃ x y, x < w ∧ y < h ∧ diffPos isWide front back x y ∧
        op = ⟨x, y, renderChar isWide w x (cellAt (rowAt back y) x),
          (cellAt (rowAt back y) x).style⟩ := by
  unfold ShowWrites
  rw [List.mem_join]
  constructor
  · rintro ⟨l, hl, hop⟩
    rw [List.mem_map] at hl
    obtain ⟨y, hy, rfl⟩ := hl
    rw [List.mem_range] at hy
    unfold rowWrites at hop
    rw [List.mem_map] at hop
    obtain ⟨x, hx, rfl⟩ := hop
    rw [List.mem_filter, List.mem_range] at hx
    exact ⟨x, y, hx.1, hy, (mustWrite_iff isWide front back x y).mp hx.2, rfl⟩
  · rintro ⟨x, y, hx, hy, hd, rfl⟩
    refine ⟨rowWrites isWide w y (rowAt front y) (rowAt back y), ?_, ?_⟩
    · rw [List.mem_map]
      exact ⟨y, List.mem_range.mpr hy, rfl⟩
    · unfold rowWrites
      rw [List.mem_map]
      refine ⟨x, ?_, rfl⟩
      exact List.mem_filter.mpr ⟨List.mem_range.mpr hx,
        (mustWrite_iff isWide front back x y).mpr hd⟩

/-- A diff of a grid against itself emits nothing. -/
theorem showWrites_self_nil (isWide : Char → Bool) (w h : Nat)
    (back : List (List Cell)) :
    ShowWrites isWide w h back back = [] := by
  unfold ShowWrites
  rw [List.join_eq_nil]
  intro l hl
  simp only [List.mem_map, List.mem_range] at hl
  obtain ⟨y, _, rfl⟩ := hl
  unfold rowWrites
  rw [List.map_eq_nil, List.filter_eq_nil]
  intro x _
  simp [mustWrite]

/-- Copying changed cells of one row leaves exactly the back row. -/
theorem rowCopy_eq (f b : List Cell) (h : f.length = b.length) :
    List.zipWith (fun fc bc => if fc = bc then fc else bc) f b = b := by
  induction f generalizing b with
  | nil =>
    cases b with
    | nil => rfl
    | cons bc bs => simp at h
  | cons fc fs ih =>
    cases b with
    | nil => simp at h
    | cons bc bs =>
      simp only [List.zipWith_cons_cons]
      have htl : fs.length = bs.length := by simpa using h
      by_cases hfb : fc = bc
      · simp [hfb, ih bs htl]
      · simp [hfb, ih bs htl]

/-- Copying changed cells from back to front makes front equal to back. -/
theorem showFront_eq_back (front back : List (List Cell))
    (hlen : front.length = back.length)
    (hrow : ∀ y, (rowAt front y).length = (rowAt back y).length) :
    showFront front back = back := by
  induction front generalizing back with
  | nil =>
    cases back with
    | nil => rfl
    | cons br brs => simp at hlen
  | cons fr frs ih =>
    cases back with
    | nil => simp at hlen
    | cons br brs =>
      have h0 : fr.length = br.length := by simpa [rowAt] using hrow 0
      have htl : frs.length = brs.length := by simpa using hlen
      have hrowtl : ∀ y, (rowAt frs y).length = (rowAt brs y).length := by
        intro y
        simpa [rowAt, List.getD_cons_succ] using hrow (y + 1)
      simp only [showFront, List.zipWith_cons_cons]
      rw [rowCopy_eq fr br h0]
      exact congrArg (br :: ·) (ih brs htl hrowtl)

/-- Length of a row read through `rowAt` of a well-formed list of rows. -/
theorem rowAt_length (rows : List (List Cell)) (w h : Nat) (hl : rows.length = h)
    (hr : ∀ row ∈ rows, row.length = w) (y : Nat) :
    (rowAt rows y).length = if y < h then w else 0 := by
  unfold rowAt
  by_cases hy : y < h
  · rw [if_pos hy]
    exact hr _ (getD_mem rows y [] (by omega))
  · rw [if_neg hy, getD_of_le rows y [] (by omega)]
    rfl

/-- `SetContent` does not change the grid dimensions. -/
theorem setContent_width (g : Grid) (x y : Int) (p : Char) (c : List Char) (st : Nat) :
    (SetContent g x y p c st).width = g.width := by
  unfold SetContent
  split <;> rfl

/-- `SetContent` does not change the grid dimensions. -/
theorem setContent_height (g : Grid) (x y : Int) (p : Char) (c : List Char) (st : Nat) :
    (SetContent g x y p c st).height = g.height := by
  unfold SetContent
  split <;> rfl

/-- An in-range `SetContent` places the cell where requested. -/
theorem setContent_cell (g : Grid) (hg : g.WF) (x y : Nat)
    (hx : x < g.width) (hy : y < g.height) (p : Char) (c : List Char) (st : Nat) :
    cellAt (rowAt (SetContent g (x : Int) (y : Int) p c st).rows y) x = ⟨p, c, st⟩ := by
  have hguard : (0 : Int) ≤ (x : Int) ∧ (x : Int) < (g.width : Int) ∧
      (0 : Int) ≤ (y : Int) ∧ (y : Int) < (g.height : Int) := by
    refine ⟨by omega, by omega, by omega, by omega⟩
  unfold SetContent
  rw [if_pos hguard]
  have hxn : ((x : Int)).toNat = x := by omega
  have hyn : ((y : Int)).toNat = y := by omega
  simp only [hxn, hyn]
  have hylen : y < g.rows.length := by rw [hg.1]; omega
  unfold rowAt
  rw [listUpdate_getD_self _ _ _ _ hylen]
  unfold cellAt
  have hxlen : x < (g.rows.getD y []).length := by
    rw [hg.2 _ (getD_mem g.rows y [] hylen)]
    omega
  exact listUpdate_getD_self _ _ _ _ (by simpa [rowAt] using hxlen)

/-- An in-range `GetContent` reads the stored cell and derives its
width. -/
theorem getContent_inrange (isWide : Char → Bool) (g : Grid) (x y : Nat)
    (hx : x < g.width) (hy : y < g.height) :
    GetContent isWide g (x : Int) (y : Int) =
      ((cellAt (rowAt g.rows y) x).primary, (cellAt (rowAt g.rows y) x).combining,
        (cellAt (rowAt g.rows y) x).style,
        runeWidth isWide (cellAt (rowAt g.rows y) x).primary) := by
  have hguard : (0 : Int) ≤ (x : Int) ∧ (x : Int) < (g.width : Int) ∧
      (0 : Int) ≤ (y : Int) ∧ (y : Int) < (g.height : Int) := by
    refine ⟨by omega, by omega, by omega, by omega⟩
  unfold GetContent
  rw [if_pos hguard]
  have hxn : ((x : Int)).toNat = x := by omega
  have hyn : ((y : Int)).toNat = y := by omega
  simp only [hxn, hyn]

end RenderLemmas

end Tcell

/-- C2: for an event queue of fixed capacity N, posting N events via
`PostEvent` all succeed, the (N+1)-th `PostEvent` fails and that event is
never delivered (the queue is unchanged by the failing call), and
draining the queue returns the delivered events in exactly the order they
were posted. -/
theorem claim_C2_queue_fifo_and_bound (E : Type) (N : Nat) (es : List E)
    (hlen : es.length = N) :
    (Tcell.PostMany (Tcell.EventQ.new E N) es).2 = List.replicate N none ∧
    (Tcell.PostMany (Tcell.EventQ.new E N) es).1.events = es ∧
    (∀ ev : E, Tcell.PostEvent (Tcell.PostMany (Tcell.EventQ.new E N) es).1 ev =
      ((Tcell.PostMany (Tcell.EventQ.new E N) es).1,
        some Tcell.QueueError.ErrEventQFull)) ∧
    (∀ ev : E,
      Tcell.DrainFuel N (Tcell.PostEvent (Tcell.PostMany (Tcell.EventQ.new E N) es).1 ev).1 = es) := by
  have hfull : Tcell.PostMany (Tcell.EventQ.new E N) es =
      (⟨N, es, false⟩, List.replicate N none) := by
    have := Tcell.postMany_appends es ([] : List E) N false (by simp [hlen])
    simpa [Tcell.EventQ.new, hlen] using this
  have hpost : ∀ ev : E, Tcell.PostEvent (⟨N, es, false⟩ : Tcell.EventQ E) ev =
      (⟨N, es, false⟩, some Tcell.QueueError.ErrEventQFull) := by
    intro ev
    simp [Tcell.PostEvent, hlen]
  refine ⟨by simp [hfull], by simp [hfull], by simp [hfull, hpost], ?_⟩
  intro ev
  have := Tcell.drainFuel_delivers es N
  simp [hfull, hpost, hlen ▸ this]

/-- Witness for C2 at a concrete input: capacity 3, events [10, 20, 30]. -/
theorem claim_C2_queue_fifo_and_bound_witness :
    ([10, 20, 30] : List Nat).length = 3 ∧
    (Tcell.PostMany (Tcell.EventQ.new Nat 3) [10, 20, 30]).1.events = [10, 20, 30] :=
  ⟨by decide, (claim_C2_queue_fifo_and_bound Nat 3 [10, 20, 30] (by decide)).2.1⟩

/-- C3: once the instance has transitioned to Stopped (after `Fini()`),
every `PollEvent` call — including one that was blocked when the
transition occurred, which now returns — yields the nil Event, and so
does every subsequent call. -/
theorem claim_C3_pollEvent_after_stop (E : Type) (q : Tcell.EventQ E) (n : Nat) :
    Tcell.PollMany n (Tcell.Fini q) = (List.replicate n none, Tcell.Fini q) ∧
    (q.stopped = true → Tcell.PollMany n q = (List.replicate n none, q)) := by
  have key : ∀ (p : Tcell.EventQ E), p.stopped = true →
      Tcell.PollMany n p = (List.replicate n none, p) := by
    intro p hp
    induction n with
    | zero => simp [Tcell.PollMany]
    | succ m ih =>
      simp [Tcell.PollMany, Tcell.PollEvent, hp, ih, List.replicate_succ]
  exact ⟨key (Tcell.Fini q) rfl, key q⟩

/-- Witness for C3 at a concrete input: a stopped queue still holding an
undelivered event returns the nil Event on both of two successive calls. -/
theorem claim_C3_pollEvent_after_stop_witness :
    Tcell.PollMany 2 (⟨4, [7], true⟩ : Tcell.EventQ Nat) = ([none, none], ⟨4, [7], true⟩) :=
  (claim_C3_pollEvent_after_stop Nat ⟨4, [7], true⟩ 2).2 rfl

/-- C4: `PostEvent(ev)` never blocks: with remaining capacity it appends
`ev` and succeeds; on a full queue it returns `ErrEventQFull`, the event
is dropped, no retry occurs, and the queue state is unchanged. -/
theorem claim_C4_postEvent_nonblocking (E : Type) (q : Tcell.EventQ E) (ev : E) :
    (q.events.length < q.capacity →
      Tcell.PostEvent q ev = ({ q with events := q.events ++ [ev] }, none)) ∧
    (¬ q.events.length < q.capacity →
      Tcell.PostEvent q ev = (q, some Tcell.QueueError.ErrEventQFull)) := by
  constructor <;> intro h <;> simp [Tcell.PostEvent, h]

/-- Witness for C4 at a concrete input: a full queue of capacity 1 rejects
a post with `ErrEventQFull` and is left unchanged. -/
theorem claim_C4_postEvent_nonblocking_witness :
    Tcell.PostEvent (⟨1, [7], false⟩ : Tcell.EventQ Nat) 9 =
      (⟨1, [7], false⟩, some Tcell.QueueError.ErrEventQFull) :=
  (claim_C4_postEvent_nonblocking Nat ⟨1, [7], false⟩ 9).2 (by decide)

/-- C8: `Clear()` is extensionally equal to `Fill(' ', defaultStyle)`:
after either call every back-grid cell holds a space with no combining
characters and the current default style, and the front grid is untouched
by both. -/
theorem claim_C8_clear_equals_fill (s : Tcell.ScreenBuffer) :
    Tcell.Clear s = Tcell.Fill s ' ' s.defaultStyle ∧
    (∀ row ∈ (Tcell.Clear s).back.rows, ∀ c ∈ row,
      c = (⟨' ', [], s.defaultStyle⟩ : Tcell.Cell)) ∧
    (Tcell.Clear s).front = s.front ∧
    (∀ ch st, (Tcell.Fill s ch st).front = s.front) := by
  refine ⟨rfl, ?_, rfl, fun _ _ => rfl⟩
  intro row hrow c hc
  simp only [Tcell.Clear, List.mem_map] at hrow
  obtain ⟨r0, _, rfl⟩ := hrow
  simp only [List.mem_map] at hc
  obtain ⟨c0, _, rfl⟩ := hc
  rfl

/-- Witness for C8 at a concrete input: a 2×1 buffer with default style 7. -/
theorem claim_C8_clear_equals_fill_witness :
    Tcell.Clear ⟨Tcell.mkGrid 2 1, Tcell.mkGrid 2 1, 7⟩ =
      Tcell.Fill ⟨Tcell.mkGrid 2 1, Tcell.mkGrid 2 1, 7⟩ ' ' 7 :=
  (claim_C8_clear_equals_fill ⟨Tcell.mkGrid 2 1, Tcell.mkGrid 2 1, 7⟩).1

/-- C9: for every out-of-range coordinate pair, `SetContent` leaves the
grid entirely unchanged and `GetContent` returns the defined empty value:
zero rune, no combining, default style, width 0. -/
theorem claim_C9_out_of_range_ops (isWide : Char → Bool) (g : Tcell.Grid)
    (x y : Int) (pr : Char) (comb : List Char) (st : Nat)
    (h : ¬ (0 ≤ x ∧ x < (g.width : Int) ∧ 0 ≤ y ∧ y < (g.height : Int))) :
    Tcell.SetContent g x y pr comb st = g ∧
    Tcell.GetContent isWide g x y = (Char.ofNat 0, [], Tcell.StyleDefault, 0) := by
  constructor <;> simp [Tcell.SetContent, Tcell.GetContent, h]

/-- Witness for C9 at a concrete input: `SetContent(-1, 0, 'A', nil, 3)`
on an 80×24 grid is a no-op and `GetContent(-1, 0)` reads the empty
value. -/
theorem claim_C9_out_of_range_ops_witness :
    Tcell.SetContent (Tcell.mkGrid 80 24) (-1) 0 'A' [] 3 = Tcell.mkGrid 80 24 ∧
    Tcell.GetContent (fun _ => false) (Tcell.mkGrid 80 24) (-1) 0 =
      (Char.ofNat 0, [], Tcell.StyleDefault, 0) :=
  claim_C9_out_of_range_ops (fun _ => false) (Tcell.mkGrid 80 24) (-1) 0 'A' [] 3
    (by decide)

/-- C10: `NewScreen` returns a non-nil screen with a nil error whenever
the console constructor yields a non-nil screen (its error is discarded),
or else whenever the terminfo constructor yields a non-nil screen; only
when both yield nil does it return a nil screen, and then exactly the
terminfo constructor's error — the console error is never surfaced. -/
theorem claim_C10_newScreen_selection (S Err : Type)
    (console terminfo : Option S × Option Err) :
    (∀ s, console.1 = some s → Tcell.NewScreen console terminfo = (some s, none)) ∧
    (console.1 = none → ∀ s, terminfo.1 = some s →
      Tcell.NewScreen console terminfo = (some s, none)) ∧
    (console.1 = none → terminfo.1 = none →
      Tcell.NewScreen console terminfo = (none, terminfo.2)) := by
  obtain ⟨cs, ce⟩ := console
  obtain ⟨ts, te⟩ := terminfo
  refine ⟨?_, ?_, ?_⟩ <;> cases cs <;> cases ts <;>
    simp_all [Tcell.NewScreen]

/-- Witness for C10 at a concrete input: console fails with an error and a
nil screen, terminfo succeeds; its screen is returned with a nil error
and the console error is dropped. -/
theorem claim_C10_newScreen_selection_witness :
    Tcell.NewScreen ((none, some "console failed") : Option Nat × Option String)
      ((some 5, none) : Option Nat × Option String) = (some 5, none) :=
  (claim_C10_newScreen_selection Nat String (none, some "console failed")
    (some 5, none)).2.1 rfl 5 rfl

/-- C6: for a rune with both an explicitly registered fallback (via
`RegisterRuneFallback`) and a backend-supplied implicit fallback, the
render stage's fallback resolution uses the explicit registration —
explicit registrations shadow implicit ones.  The rune is assumed not
natively displayable and without a native terminal replacement, so that
the render stage actually consults the registry. -/
theorem claim_C6_explicit_shadows_implicit (native : Char → Bool)
    (nativeSubst : Char → Option String) (reg : Tcell.FallbackRegistry)
    (r : Char) (esub isub : String)
    (hnat : native r = false) (hns : nativeSubst r = none)
    (himp : reg.implicitSubs.lookup r = some isub) :
    Tcell.displayResolve native nativeSubst
        (Tcell.RegisterRuneFallback reg r esub) r = esub ∧
    Tcell.resolveFallback (Tcell.RegisterRuneFallback reg r esub) r = some esub ∧
    (Tcell.RegisterRuneFallback reg r esub).implicitSubs.lookup r = some isub := by
  have hres : Tcell.resolveFallback (Tcell.RegisterRuneFallback reg r esub) r =
      some esub := by
    simp [Tcell.resolveFallback, Tcell.RegisterRuneFallback, List.lookup]
  refine ⟨?_, hres, by simpa [Tcell.RegisterRuneFallback] using himp⟩
  simp [Tcell.displayResolve, hnat, hns, hres]

/-- Witness for C6 at a concrete input: 'ø' has the implicit fallback "oe"
and an explicit registration "o"; resolution yields "o". -/
theorem claim_C6_explicit_shadows_implicit_witness :
    Tcell.displayResolve (fun _ => false) (fun _ => none)
        (Tcell.RegisterRuneFallback ⟨[], [('ø', "oe")]⟩ 'ø' "o") 'ø' = "o" :=
  (claim_C6_explicit_shadows_implicit (fun _ => false) (fun _ => none)
    ⟨[], [('ø', "oe")]⟩ 'ø' "o" "oe" rfl rfl (by decide)).1

/-- C7: `CanDisplay(r, checkFallbacks)` returns true whenever the
character set natively supports `r`, regardless of `checkFallbacks`;
when `r` is displayable only via a native terminal replacement or a
registered fallback, it returns true if and only if `checkFallbacks` is
true; in all other cases it returns false. -/
theorem claim_C7_canDisplay_cases (native : Char → Bool)
    (nativeSubst : Char → Option String) (reg : Tcell.FallbackRegistry)
    (r : Char) (checkFallbacks : Bool) :
    (native r = true →
      Tcell.CanDisplay native nativeSubst reg r checkFallbacks = true) ∧
    (native r = false →
      ((nativeSubst r).isSome = true ∨ (Tcell.resolveFallback reg r).isSome = true) →
      Tcell.CanDisplay native nativeSubst reg r checkFallbacks = checkFallbacks) ∧
    (native r = false → nativeSubst r = none → Tcell.resolveFallback reg r = none →
      Tcell.CanDisplay native nativeSubst reg r checkFallbacks = false) := by
  refine ⟨fun h => by simp [Tcell.CanDisplay, h], fun h hf => ?_,
    fun h h1 h2 => by simp [Tcell.CanDisplay, h, h1, h2]⟩
  cases checkFallbacks with
  | false => simp [Tcell.CanDisplay, h]
  | true =>
    rcases hf with h1 | h1 <;> simp [Tcell.CanDisplay, h, h1]

/-- Witness for C7 at a concrete input: a rune displayable only through a
registered fallback is reported displayable exactly when fallbacks are
checked. -/
theorem claim_C7_canDisplay_cases_witness :
    Tcell.CanDisplay (fun _ => false) (fun _ => none) ⟨[('ø', "o")], []⟩ 'ø' true =
      true :=
  (claim_C7_canDisplay_cases (fun _ => false) (fun _ => none) ⟨[('ø', "o")], []⟩
    'ø' true).2.1 rfl (Or.inr (by decide))

/-- C1: for back/front buffers differing in k cells, `Show()` emits
writes for exactly the k changed positions (plus the continuation
columns invalidated by changed wide cells), in row-major order; it
copies the changed cells from back to front, leaves the back grid as is,
and an immediately subsequent `Show()` with no intervening buffer writes
emits zero writes. -/
theorem claim_C1_show_diff_minimality (isWide : Char → Bool) (s : Tcell.ScreenBuffer)
    (hbWF : s.back.WF) (hfWF : s.front.WF)
    (hw : s.front.width = s.back.width) (hh : s.front.height = s.back.height) :
    (Tcell.Show isWide s).1.map (fun op => (op.x, op.y)) =
      ((List.range s.back.height).map (fun y =>
        ((List.range s.back.width).filter
          (fun x => decide (Tcell.diffPos isWide s.front.rows s.back.rows x y))).map
          (fun x => (x, y)))).join ∧
    (Tcell.Show isWide s).2.front.rows = s.back.rows ∧
    (Tcell.Show isWide s).2.back = s.back ∧
    (Tcell.Show isWide (Tcell.Show isWide s).2).1 = [] := by
  have hcopy : Tcell.showFront s.front.rows s.back.rows = s.back.rows := by
    apply Tcell.showFront_eq_back
    · rw [hfWF.1, hbWF.1, hh]
    · intro y
      rw [Tcell.rowAt_length s.front.rows s.front.width s.front.height hfWF.1 hfWF.2 y,
        Tcell.rowAt_length s.back.rows s.back.width s.back.height hbWF.1 hbWF.2 y,
        hw, hh]
  refine ⟨Tcell.showWrites_positions isWide _ _ _ _, hcopy, rfl, ?_⟩
  show Tcell.ShowWrites isWide s.back.width s.back.height
      (Tcell.showFront s.front.rows s.back.rows) s.back.rows = []
  rw [hcopy]
  exact Tcell.showWrites_self_nil isWide _ _ _

/-- Witness for C1 at a concrete input: a 2×1 buffer whose back grid
changed at (0, 0); after `Show()` the front rows equal the back rows. -/
theorem claim_C1_show_diff_minimality_witness :
    (Tcell.Show (fun _ => false)
        ⟨⟨2, 1, [[⟨'A', [], 0⟩, Tcell.emptyCell]]⟩, Tcell.mkGrid 2 1, 0⟩).2.front.rows =
      (⟨⟨2, 1, [[⟨'A', [], 0⟩, Tcell.emptyCell]]⟩, Tcell.mkGrid 2 1,
        0⟩ : Tcell.ScreenBuffer).back.rows :=
  (claim_C1_show_diff_minimality (fun _ => false)
    ⟨⟨2, 1, [[⟨'A', [], 0⟩, Tcell.emptyCell]]⟩, Tcell.mkGrid 2 1, 0⟩
    (by decide) (by decide) (by decide) (by decide)).2.1

/-- C5: a rune of display width 2 placed (via `SetContent`) at the last
column of a row is rendered by `Show()` as a single-width space at that
column instead of the wide character; the substitution does not mutate
the back grid's logical content — `Show` leaves the back grid as is and
`GetContent` at that position still returns the wide rune with width 2. -/
theorem claim_C5_wide_rune_last_column (isWide : Char → Bool) (s : Tcell.ScreenBuffer)
    (y : Nat) (r : Char) (st : Nat)
    (hwide : isWide r = true) (hw : 1 ≤ s.back.width) (hy : y < s.back.height)
    (hWF : s.back.WF)
    (hch : Tcell.cellAt (Tcell.rowAt s.front.rows y) (s.back.width - 1) ≠ ⟨r, [], st⟩) :
    (∃ op ∈ (Tcell.Show isWide
        (⟨Tcell.SetContent s.back ((s.back.width - 1 : Nat) : Int) (y : Int) r [] st,
          s.front, s.defaultStyle⟩ : Tcell.ScreenBuffer)).1,
      op.x = s.back.width - 1 ∧ op.y = y ∧ op.ch = ' ') ∧
    (Tcell.Show isWide
        (⟨Tcell.SetContent s.back ((s.back.width - 1 : Nat) : Int) (y : Int) r [] st,
          s.front, s.defaultStyle⟩ : Tcell.ScreenBuffer)).2.back =
      Tcell.SetContent s.back ((s.back.width - 1 : Nat) : Int) (y : Int) r [] st ∧
    Tcell.GetContent isWide
        (Tcell.SetContent s.back ((s.back.width - 1 : Nat) : Int) (y : Int) r [] st)
        ((s.back.width - 1 : Nat) : Int) (y : Int) = (r, [], st, 2) := by
  set g' := Tcell.SetContent s.back ((s.back.width - 1 : Nat) : Int) (y : Int) r [] st
    with hg'
  have hcell : Tcell.cellAt (Tcell.rowAt g'.rows y) (s.back.width - 1) = ⟨r, [], st⟩ := by
    rw [hg']
    exact Tcell.setContent_cell s.back hWF (s.back.width - 1) y (by omega) hy r [] st
  have hwidth : g'.width = s.back.width := by
    rw [hg']
    exact Tcell.setContent_width s.back _ _ r [] st
  have hheight : g'.height = s.back.height := by
    rw [hg']
    exact Tcell.setContent_height s.back _ _ r [] st
  have hdiff : Tcell.diffPos isWide s.front.rows g'.rows (s.back.width - 1) y := by
    left
    rw [hcell]
    exact Ne.symm hch
  have hrender : Tcell.renderChar isWide g'.width (s.back.width - 1)
      (Tcell.cellAt (Tcell.rowAt g'.rows y) (s.back.width - 1)) = ' ' := by
    rw [hcell]
    unfold Tcell.renderChar
    rw [if_pos]
    constructor
    · exact hwide
    · rw [hwidth]
      omega
  refine ⟨?_, rfl, ?_⟩
  · refine ⟨⟨s.back.width - 1, y,
      Tcell.renderChar isWide g'.width (s.back.width - 1)
        (Tcell.cellAt (Tcell.rowAt g'.rows y) (s.back.width - 1)),
      (Tcell.cellAt (Tcell.rowAt g'.rows y) (s.back.width - 1)).style⟩, ?_, rfl, rfl,
      hrender⟩
    show _ ∈ Tcell.ShowWrites isWide g'.width g'.height s.front.rows g'.rows
    refine (Tcell.mem_showWrites isWide g'.width g'.height s.front.rows g'.rows _).mpr
      ⟨s.back.width - 1, y, ?_, ?_, hdiff, rfl⟩
    · rw [hwidth]
      omega
    · rw [hheight]
      exact hy
  · have hxw : s.back.width - 1 < g'.width := by
      rw [hwidth]
      omega
    have hyh : y < g'.height := by
      rw [hheight]
      exact hy
    rw [Tcell.getContent_inrange isWide g' (s.back.width - 1) y hxw hyh, hcell]
    simp [Tcell.runeWidth, hwide]

/-- Witness for C5 at a concrete input: the spec scenario — a 10×1 grid,
`SetContent(9, 0, '世', nil, 1)` with '世' wide; `GetContent(9, 0)` still
reads the wide rune with width 2. -/
theorem claim_C5_wide_rune_last_column_witness :
    Tcell.GetContent (fun c => decide (c = '世'))
        (Tcell.SetContent (Tcell.mkGrid 10 1) (((Tcell.mkGrid 10 1).width - 1 : Nat) : Int)
          ((0 : Nat) : Int) '世' [] 1)
        (((Tcell.mkGrid 10 1).width - 1 : Nat) : Int) ((0 : Nat) : Int) =
      ('世', [], 1, 2) :=
  (claim_C5_wide_rune_last_column (fun c => decide (c = '世'))
    ⟨Tcell.mkGrid 10 1, Tcell.mkGrid 10 1, 0⟩ 0 '世' 1 (by decide) (by decide)
    (by decide) (by decide) (by decide)).2.2
